import Mathlib

/-!
# Verification of `advanced-vector` (`src/advanced-vector/vector.h`)

A shallow embedding of the two components of the repository:

* `RawMemory<T>` — a raw allocation owner (`buffer_ : T*`, `capacity_ : size_t`).
  We model the stored pointer as `Option Nat` (`none` = `nullptr`, `some a` =
  an abstract allocation address `a`) and the capacity as `Nat`.
* `Vector<T>` — the container: one `RawMemory<T>` plus `size_`.  For the value
  semantics we model a vector state as the list of live elements (slots
  `[0, size_)`, in order) together with the capacity; `size_` is the length of
  that list.  Raw uninitialized buffers (targets of placement `new` /
  `std::uninitialized_*` during reallocation) are modelled as
  `List (Option α)` of length = capacity, `none` meaning an uninitialized slot.

Machine arithmetic: every `size_t` quantity in the source stays far below
2^64 in the scenarios modelled (sizes and capacities of abstract lists), and
the source never relies on wraparound, so sizes and capacities are `Nat`.
-/

namespace AdvVec

/-- Abstract heap address of an allocation. -/
abbrev Addr := Nat

/-- Embeds `RawMemory<T>`: the stored pointer `buffer_` (`none` = `nullptr`)
and `capacity_`.  The element type plays no role at this layer (the class
never constructs a `T`), so the model is type-erased. -/
structure RawMemory where
  buffer : Option Addr
  capacity : Nat
  deriving DecidableEq, Repr

/-- A default-constructed `RawMemory`: `buffer_ = nullptr`, `capacity_ = 0`. -/
def RawMemory.mk0 : RawMemory := ⟨none, 0⟩

/-- Embeds `RawMemory(RawMemory&& other)`:
`buffer_ = std::exchange(other.buffer_, nullptr);`
`capacity_ = std::exchange(other.capacity_, 0);`
Returns `(the new object, the state other is left in)`. -/
def RawMemory.moveConstruct (other : RawMemory) : RawMemory × RawMemory :=
  (⟨other.buffer, other.capacity⟩, ⟨none, 0⟩)

/-- Embeds `RawMemory::Swap`: `std::swap(buffer_, ...); std::swap(capacity_, ...)`. -/
def RawMemory.swap (a b : RawMemory) : RawMemory × RawMemory :=
  (⟨b.buffer, b.capacity⟩, ⟨a.buffer, a.capacity⟩)

/-- Embeds `RawMemory::operator=(RawMemory&& rhs)`.  `same` models the
`this != std::addressof(rhs)` address-identity test (`true` iff `this` and
`rhs` are the same object).  In the distinct case the code runs
`Deallocate(buffer_); capacity_ = 0; Swap(rhs);` — note that `Deallocate`
frees the pointer but does **not** null `buffer_`, so the subsequent swap
hands the freed address to `rhs`.  Returns `(this after, rhs after)`. -/
def RawMemory.moveAssign (lhs rhs : RawMemory) (same : Bool) : RawMemory × RawMemory :=
  if same then (lhs, rhs)
  else
    let lhs' : RawMemory := ⟨lhs.buffer, 0⟩
    lhs'.swap rhs

/-- The addresses `RawMemory.moveAssign` hands to `operator delete` over the
rest of both objects' lifetimes in the distinct-objects case: the explicit
`Deallocate(buffer_)` in `operator=`, then each object's destructor
`Deallocate(buffer_)`. -/
def RawMemory.moveAssignDeallocations (lhs rhs : RawMemory) : List (Option Addr) :=
  let r := lhs.moveAssign rhs false
  [lhs.buffer, r.1.buffer, r.2.buffer]

end AdvVec

namespace AdvVec

/-- Embeds the state of `Vector<T>`: the live elements (slots `[0, size_)` of
`data_`, in order) and `data_.Capacity()`.  `size_` is `elems.length`. -/
structure Vec (α : Type) where
  elems : List α
  capacity : Nat
  deriving DecidableEq, Repr

/-- `size_` of the vector. -/
def Vec.size (v : Vec α) : Nat := v.elems.length

/-- The class invariant `size_ <= data_.Capacity()` (live objects fit in the
allocation). -/
def Vec.wf (v : Vec α) : Prop := v.size ≤ v.capacity

instance (v : Vec α) : Decidable v.wf := by unfold Vec.wf; infer_instance

/-- A default-constructed `Vector` (`data_` null with capacity 0, `size_ = 0`). -/
def Vec.mk0 (α : Type) : Vec α := ⟨[], 0⟩

/-- Embeds `Vector::Swap`: swaps the two buffers and the two sizes.
Returns `(this after, other after)`. -/
def Vec.swap (a b : Vec α) : Vec α × Vec α := (b, a)

/-- Embeds `Vector(Vector&& other)`: default-member-initialized `this`
(`data_` null/0, `size_ = 0`) then `Swap(other)`.
Returns `(the new vector, the state other is left in)`. -/
def Vec.moveConstruct (other : Vec α) : Vec α × Vec α :=
  (Vec.mk0 α).swap other

/-- Embeds `Vector::operator=(Vector&& rhs)`.  `same` models the
`this != std::addressof(rhs)` test.  Distinct case:
if `data_.Capacity() < rhs.Size()` then `Vector<T> rhs_copy(std::move(rhs)); Swap(rhs_copy);`
(the temporary, holding this's old contents after the swap, is destroyed),
else `Swap(rhs)`.  Returns `(this after, rhs after)`. -/
def Vec.moveAssign (lhs rhs : Vec α) (same : Bool) : Vec α × Vec α :=
  if same then (lhs, rhs)
  else if lhs.capacity < rhs.size then
    let (rhsCopy, rhs') := rhs.moveConstruct
    let (lhs', _discarded) := lhs.swap rhsCopy
    (lhs', rhs')
  else
    lhs.swap rhs

/-- Embeds `std::copy_n(src, count, dst)` over live slots: overwrites
`dst[0..count)` with `src[0..count)` by assignment. -/
def copyN (src dst : List α) (count : Nat) : List α :=
  src.take count ++ dst.drop count

/-- Embeds `Vector::operator=(const Vector& rhs)`.  `same` models the
`this != std::addressof(rhs)` test.  Distinct case: if
`data_.Capacity() < rhs.Size()`, copy-and-swap via `Vector<T> rhs_copy(rhs)`
(the copy constructor allocates exactly `other.Size()`); otherwise reuse the
buffer: destroy the excess tail (or `uninitialized_copy_n` the missing tail),
then `copy_n` over the common prefix, and set `size_ = rhs.Size()`. -/
def Vec.copyAssign (lhs rhs : Vec α) (same : Bool) : Vec α :=
  if same then lhs
  else if lhs.capacity < rhs.size then
    ⟨rhs.elems, rhs.size⟩
  else if lhs.size > rhs.size then
    let afterDestroy := lhs.elems.take rhs.size
    ⟨copyN rhs.elems afterDestroy (min rhs.size lhs.size), lhs.capacity⟩
  else
    let afterExtend := lhs.elems ++ rhs.elems.drop lhs.size
    ⟨copyN rhs.elems afterExtend (min rhs.size lhs.size), lhs.capacity⟩

/-! ## The in-place insertion path (`EmplaceWithoutReallocate`)

The non-end branch mutates the live buffer in a specific order:
construct `temp_args` from the arguments, placement-`new` the old last element
into the free end slot, `std::move_backward(begin() + d, end() - 1, end())`,
then move-assign `temp_args` into slot `d`.  We embed the buffer of live
slots as a list (`size + 1` entries once the end slot is constructed) and the
`move_backward` as the literal backward loop of single-slot assignments. -/

/-- Embeds `std::move_backward(begin() + d, end() - 1, end())` acting on the
buffer `b`: assigns `b[j] = move(b[j-1])` for `j` from `hi` down to `d + 1`
(`hi` is the index of `*(d_last - 1)`, the last slot written; the loop stops
once `hi` has descended to `d`). -/
def moveBackwardLoop [Inhabited α] (b : List α) (d hi : Nat) : List α :=
  match hi with
  | 0 => b
  | j + 1 =>
    if j + 1 ≤ d then b
    else moveBackwardLoop (b.set (j + 1) (b.getD j default)) d j

/-- Embeds `Vector::EmplaceWithoutReallocate(pos, args...)` acting on the live
elements, for a single value argument `x` (the `Insert`/`PushBack` case, where
constructing `T` from the argument yields the value `x`); `d` is
`distance(cbegin(), pos)`.  `pos == end()` constructs directly in the free
slot; otherwise `temp_args` is built first, the old last element is
move-constructed into the end slot, the range `[d, size-1)` is shifted right
by `move_backward`, and `temp_args` is move-assigned into slot `d`. -/
def emplaceWithoutReallocate [Inhabited α] (elems : List α) (d : Nat) (x : α) : List α :=
  if d = elems.length then
    elems ++ [x]
  else
    let temp := x
    let b1 := elems ++ [elems.getD (elems.length - 1) default]
    let b2 := moveBackwardLoop b1 d (elems.length - 1)
    b2.set d temp

/-! ## Uninitialized buffers and the reallocation paths

`RawMemory` hands out uninitialized storage; `std::uninitialized_move_n`,
`std::uninitialized_copy_n` and placement `new` fill individual slots.  An
uninitialized buffer of capacity `c` is a `List (Option α)` of length `c`,
`none` for a slot with no live object. -/

/-- A fresh allocation of capacity `c`: every slot uninitialized. -/
def freshBuf (α : Type) (c : Nat) : List (Option α) := List.replicate c none

/-- Embeds `std::uninitialized_copy_n(src, n, buf + dst)` (and, value-wise,
`std::uninitialized_move_n`): constructs the values `vals` into consecutive
slots of `buf` starting at index `dst`. -/
def uninitializedCopyN (vals : List α) (buf : List (Option α)) (dst : Nat) :
    List (Option α) :=
  match vals with
  | [] => buf
  | v :: rest => uninitializedCopyN rest (buf.set dst (some v)) (dst + 1)

/-- The live elements of the first `n` slots of a buffer (slots `[0, n)` are
expected to hold constructed objects). -/
def liveElems (buf : List (Option α)) (n : Nat) : List α :=
  (buf.take n).filterMap id

/-- Embeds `Vector::EmplaceWithReallocate(pos, args...)` for a single value
argument `x`; `d` is `distance(cbegin(), pos)`.  A new `RawMemory` of capacity
`size_ == 0 ? 1 : size_ * 2` is allocated; the new element is constructed at
offset `d` of the new buffer first; then the prefix `[0, d)` and the suffix
`[d, size)` are relocated around it (by move- or copy-construction — the same
values either way); the originals are destroyed and the buffers swapped.
Returns the new live elements and the new capacity. -/
def emplaceWithReallocate (elems : List α) (d : Nat) (x : α) : List α × Nat :=
  let n := elems.length
  let newCap := if n = 0 then 1 else n * 2
  let buf1 := (freshBuf α newCap).set d (some x)
  let buf2 := uninitializedCopyN (elems.take d) buf1 0
  let buf3 := uninitializedCopyN (elems.drop d) buf2 (d + 1)
  (liveElems buf3 (n + 1), newCap)

/-- Embeds `Vector::Emplace(pos, args...)` for a single value argument:
`new_size = size_ + 1`; the in-place path when `Capacity() >= new_size`,
the reallocating path otherwise; then `size_ = new_size`. -/
def Vec.emplace [Inhabited α] (v : Vec α) (d : Nat) (x : α) : Vec α :=
  if v.capacity ≥ v.size + 1 then
    ⟨emplaceWithoutReallocate v.elems d x, v.capacity⟩
  else
    let (elems', cap') := emplaceWithReallocate v.elems d x
    ⟨elems', cap'⟩

/-- Embeds `Vector::Insert(pos, value)` (both overloads): `Emplace(pos, value)`. -/
def Vec.insert [Inhabited α] (v : Vec α) (d : Nat) (x : α) : Vec α := v.emplace d x

/-- Embeds `Vector::PushBack(value)` (both overloads): same capacity test and
the same two helpers, with `pos = end()` (`d = size_`). -/
def Vec.pushBack [Inhabited α] (v : Vec α) (x : α) : Vec α :=
  if v.capacity ≥ v.size + 1 then
    ⟨emplaceWithoutReallocate v.elems v.size x, v.capacity⟩
  else
    let (elems', cap') := emplaceWithReallocate v.elems v.size x
    ⟨elems', cap'⟩

/-- Embeds the shifting loop of `Vector::Erase`:
`for (i = pos_to_erase; i < new_size; ++i) data_[i] = move(data_[i + 1]);`
(the `is_move_assignable` branch and the copy branch assign the same values),
with `count` the number of remaining iterations (`new_size - i`). -/
def eraseShift [Inhabited α] (b : List α) (i count : Nat) : List α :=
  match count with
  | 0 => b
  | c + 1 => eraseShift (b.set i (b.getD (i + 1) default)) (i + 1) c

/-- Embeds `Vector::Erase(pos)`: shift `[pos+1, size)` one slot left, destroy
the last slot, `size_ = size_ - 1`. -/
def Vec.erase [Inhabited α] (v : Vec α) (d : Nat) : Vec α :=
  let newSize := v.size - 1
  ⟨(eraseShift v.elems d (newSize - d)).take newSize, v.capacity⟩

/-- Embeds `Vector::PopBack`: no-op when empty, otherwise destroy the last
element and decrement `size_`. -/
def Vec.popBack (v : Vec α) : Vec α :=
  if v.size = 0 then v
  else ⟨v.elems.take (v.size - 1), v.capacity⟩

/-- Embeds `Vector::Reserve(new_capacity)`: no-op when
`new_capacity <= data_.Capacity()`; otherwise allocate a fresh buffer of
exactly `new_capacity`, relocate all `size_` elements into it (move- or
copy-construction, same values), destroy the originals, swap buffers. -/
def Vec.reserve (v : Vec α) (newCapacity : Nat) : Vec α :=
  if newCapacity ≤ v.capacity then v
  else
    let buf := uninitializedCopyN v.elems (freshBuf α newCapacity) 0
    ⟨liveElems buf v.size, newCapacity⟩

/-- Embeds `Vector::Resize(new_size)`: when `Capacity() > new_size`, destroy
the excess tail or value-construct the missing tail in place; otherwise
`Reserve(new_size)` then value-construct the missing tail
(`T()` is modelled as `default`); finally `size_ = new_size`. -/
def Vec.resize [Inhabited α] (v : Vec α) (newSize : Nat) : Vec α :=
  if v.capacity > newSize then
    if v.size > newSize then
      ⟨v.elems.take newSize, v.capacity⟩
    else
      ⟨v.elems ++ List.replicate (newSize - v.size) default, v.capacity⟩
  else
    let v' := v.reserve newSize
    ⟨v'.elems ++ List.replicate (newSize - v'.size) default, v'.capacity⟩

/-! ## The relocation policy

Both `EmplaceWithReallocate` and `Reserve` choose how to transfer existing
elements into the new buffer with
`if constexpr (std::is_nothrow_move_constructible_v<T> || !std::is_copy_constructible_v<T>)`:
the `then` branch runs `std::uninitialized_move_n`, the `else` branch
`std::uninitialized_copy_n`; both branches end with `std::destroy_n`.  We model
the two type traits as booleans and the chosen mechanism as a value. -/

/-- How elements are transferred into a new buffer during relocation. -/
inductive RelocMethod where
  | moveConstruct
  | copyConstruct
  | moveAssignInto
  deriving DecidableEq, Repr

/-- Embeds the `if constexpr` guard
`std::is_nothrow_move_constructible_v<T> || !std::is_copy_constructible_v<T>`
shared verbatim by `EmplaceWithReallocate` and `Reserve`. -/
def useMoveRelocation (nothrowMoveConstructible copyConstructible : Bool) : Bool :=
  nothrowMoveConstructible || !copyConstructible

/-- The relocation mechanism `Vector::Reserve` uses for element type traits
`(nothrowMoveConstructible, copyConstructible)`: `uninitialized_move_n` in the
`if constexpr` branch, `uninitialized_copy_n` otherwise. -/
def reserveRelocMethod (nothrowMoveConstructible copyConstructible : Bool) : RelocMethod :=
  if useMoveRelocation nothrowMoveConstructible copyConstructible then
    RelocMethod.moveConstruct
  else
    RelocMethod.copyConstruct

/-- The relocation mechanism `Vector::EmplaceWithReallocate` uses: the same
guard, `uninitialized_move_n` vs `uninitialized_copy_n`, applied to both the
prefix `[0, d)` and the suffix `[d, size)`. -/
def emplaceRelocMethod (nothrowMoveConstructible copyConstructible : Bool) : RelocMethod :=
  if useMoveRelocation nothrowMoveConstructible copyConstructible then
    RelocMethod.moveConstruct
  else
    RelocMethod.copyConstruct

/-! ## Exception injection in the reallocating-copy path

For a `T` whose copy constructor can throw (so the `else` branch of the
`if constexpr` relocates by copy), we index the copy-constructor invocations
that `EmplaceWithReallocate` performs, in program order: invocation `0` is the
placement `new (new_vec + d) T(value)` constructing the new element from the
argument, invocations `1..` are the `uninitialized_copy_n` of the prefix
followed by the suffix.  `ok i` says whether invocation `i` completes;
`ok i = false` models a throw there.  `std::uninitialized_copy_n` destroys the
objects it already constructed in the destination and rethrows; everything
constructed so far lives in `new_vec`, whose `RawMemory` destructor then
releases the allocation during unwinding, so the distinguished old buffer is
never written. -/

/-- `std::uninitialized_copy_n` with a throw injected at the given global copy
invocation counter: returns the filled buffer and the advanced counter, or
`Except.error ()` when a copy throws. -/
def uninitializedCopyNThrow (vals : List α) (buf : List (Option α)) (dst : Nat)
    (ok : Nat → Bool) (ctr : Nat) : Except Unit (List (Option α) × Nat) :=
  match vals with
  | [] => Except.ok (buf, ctr)
  | v :: rest =>
    if ok ctr then uninitializedCopyNThrow rest (buf.set dst (some v)) (dst + 1) ok (ctr + 1)
    else Except.error ()

/-- `Vector::EmplaceWithReallocate` on the copy-relocation branch with throw
injection: construct the new element (invocation 0), copy the prefix, copy the
suffix; only if all succeed are the originals destroyed and the buffers
swapped. -/
def emplaceWithReallocateThrow (elems : List α) (d : Nat) (x : α) (ok : Nat → Bool) :
    Except Unit (List α × Nat) :=
  let n := elems.length
  let newCap := if n = 0 then 1 else n * 2
  if ok 0 then
    let buf1 := (freshBuf α newCap).set d (some x)
    match uninitializedCopyNThrow (elems.take d) buf1 0 ok 1 with
    | Except.error () => Except.error ()
    | Except.ok (buf2, ctr) =>
      match uninitializedCopyNThrow (elems.drop d) buf2 (d + 1) ok ctr with
      | Except.error () => Except.error ()
      | Except.ok (buf3, _) => Except.ok (liveElems buf3 (n + 1), newCap)
  else Except.error ()

/-- `Vector::Emplace` restricted to the reallocating branch
(`Capacity() < size_ + 1`), with throw injection in the copy-relocation path.
On a throw the exception propagates out of `Emplace` before `size_ = new_size`
runs; every slot written before the throw lies in `new_vec` (destroyed during
unwinding), and `data_` and `size_` of `*this` are never touched, so the
vector observed by the caller is the pre-call state `v`. -/
def Vec.emplaceGrowThrow (v : Vec α) (d : Nat) (x : α) (ok : Nat → Bool) :
    Except (Vec α) (Vec α) :=
  match emplaceWithReallocateThrow v.elems d x ok with
  | Except.error () => Except.error v
  | Except.ok (elems', cap') => Except.ok ⟨elems', cap'⟩

/-! ## Insertion of an aliasing argument

`Insert(pos, v[k])` binds `value` to an element of the vector's own buffer;
every `T(...)` constructed from `value` reads the buffer at the moment that
construction runs.  The embedding places each read of `data_[k]` exactly where
the source performs it relative to the mutations of the buffer. -/

/-- Embeds `Insert(pos, value)` where `value` is a reference to `data_[k]` of
the same vector (`d = distance(cbegin(), pos)`).  In-place path, `pos == end()`:
`new (end()) T(value)` reads `data_[k]` (no slot has been modified).  In-place
path, `pos != end()`: `T temp_args(value)` reads `data_[k]` before the end-slot
construction and the `move_backward` shift.  Reallocating path:
`new (new_vec + d) T(value)` reads `data_[k]` before any relocation, and
relocation only writes `new_vec`. -/
def Vec.insertAliased [Inhabited α] (v : Vec α) (d k : Nat) : Vec α :=
  if v.capacity ≥ v.size + 1 then
    if d = v.size then
      ⟨v.elems ++ [v.elems.getD k default], v.capacity⟩
    else
      let temp := v.elems.getD k default
      let b1 := v.elems ++ [v.elems.getD (v.size - 1) default]
      let b2 := moveBackwardLoop b1 d (v.size - 1)
      ⟨b2.set d temp, v.capacity⟩
  else
    let (elems', cap') := emplaceWithReallocate v.elems d (v.elems.getD k default)
    ⟨elems', cap'⟩

/-! ## Sequences of public operations -/

/-- One public mutating operation of `Vector` (those of the spec's capacity
claim that operate on `*this` without exchanging buffers with another live
vector). -/
inductive Op (α : Type) where
  | push (x : α)
  | ins (d : Nat) (x : α)
  | empl (d : Nat) (x : α)
  | ers (d : Nat)
  | pop
  | res (n : Nat)
  | resv (n : Nat)
  | copyFrom (src : Vec α)

/-- Apply one public operation to a vector (`copyFrom src` is
`operator=(const Vector&)` from a distinct vector `src`). -/
def Vec.applyOp [Inhabited α] (v : Vec α) : Op α → Vec α
  | Op.push x => v.pushBack x
  | Op.ins d x => v.insert d x
  | Op.empl d x => v.emplace d x
  | Op.ers d => v.erase d
  | Op.pop => v.popBack
  | Op.res n => v.resize n
  | Op.resv n => v.reserve n
  | Op.copyFrom src => v.copyAssign src false

/-! ## Characterization of the in-place insertion path -/

lemma moveBackwardLoop_length [Inhabited α] (d : Nat) :
    ∀ (hi : Nat) (b : List α), (moveBackwardLoop b d hi).length = b.length := by
  intro hi
  induction hi with
  | zero =>
    intro b
    rfl
  | succ n ih =>
    intro b
    rw [moveBackwardLoop]
    split
    · rfl
    · simpa using ih (b.set (n + 1) (b.getD n default))

lemma moveBackwardLoop_getElem? [Inhabited α] (d : Nat) :
    ∀ (hi : Nat) (b : List α), hi < b.length → ∀ i,
      (moveBackwardLoop b d hi)[i]? = if d < i ∧ i ≤ hi then b[i - 1]? else b[i]? := by
  intro hi
  induction hi with
  | zero =>
    intro b _ i
    rw [moveBackwardLoop]
    rw [if_neg (by omega)]
  | succ n ih =>
    intro b hb i
    rw [moveBackwardLoop]
    by_cases hle : n + 1 ≤ d
    · rw [if_pos hle, if_neg (by omega)]
    · rw [if_neg hle]
      have hset : ∀ m, (b.set (n + 1) (b.getD n default))[m]? =
          if n + 1 = m then some (b.getD n default) else b[m]? := by
        intro m
        rw [List.getElem?_set]
        split <;> rfl
      have hlen : n < (b.set (n + 1) (b.getD n default)).length := by
        simp only [List.length_set]; omega
      rw [ih _ hlen i]
      by_cases h1 : d < i ∧ i ≤ n
      · rw [if_pos h1, if_pos (by omega), hset (i - 1), if_neg (by omega)]
      · rw [if_neg h1]
        by_cases h2 : i = n + 1
        · subst h2
          rw [hset (n + 1), if_pos rfl, if_pos (by omega)]
          rw [show n + 1 - 1 = n from rfl, List.getD_eq_getElem?_getD,
            List.getElem?_eq_getElem (show n < b.length from by omega)]
          rfl
        · rw [hset i, if_neg (by omega), if_neg (by omega)]

/-- The non-end in-place dance — construct the old last element in the end
slot, shift `[d, size-1)` right with `move_backward`, assign the temporary
into slot `d` — inserts the temporary's value at index `d`, preserving all
other elements in order. -/
lemma emplaceWithoutReallocate_eq [Inhabited α] (elems : List α) (d : Nat) (x : α)
    (h : d ≤ elems.length) :
    emplaceWithoutReallocate elems d x = elems.take d ++ x :: elems.drop d := by
  unfold emplaceWithoutReallocate
  by_cases hd : d = elems.length
  · subst hd
    simp
  · rw [if_neg hd]
    have hdn : d < elems.length := by omega
    have hn1 : 1 ≤ elems.length := by omega
    apply List.ext_getElem?
    intro i
    have hb1len : (elems ++ [elems.getD (elems.length - 1) default]).length
        = elems.length + 1 := by simp
    have hlast : some (elems.getD (elems.length - 1) default)
        = elems[elems.length - 1]? := by
      rw [List.getD_eq_getElem?_getD, List.getElem?_eq_getElem (by omega)]
      rfl
    have hlooplen : (moveBackwardLoop (elems ++ [elems.getD (elems.length - 1) default])
        d (elems.length - 1)).length = elems.length + 1 := by
      rw [moveBackwardLoop_length, hb1len]
    rw [List.getElem?_set, hlooplen]
    rw [moveBackwardLoop_getElem? d (elems.length - 1) _ (by rw [hb1len]; omega) i]
    simp only [List.getElem?_append, List.getElem?_take, List.getElem?_drop,
      List.getElem?_cons, List.getElem?_nil, List.length_take, List.length_cons,
      List.length_nil, Nat.min_eq_left h]
    split_ifs <;>
      first
        | rfl
        | omega
        | (congr 1; omega)
        | (rw [hlast]; congr 1; omega)
        | (rw [List.getElem?_eq_none (by omega)])

/-! ## Characterization of the reallocating paths -/

lemma uninitializedCopyN_length (vals : List α) :
    ∀ (buf : List (Option α)) (dst : Nat),
      (uninitializedCopyN vals buf dst).length = buf.length := by
  induction vals with
  | nil =>
    intro buf dst
    rfl
  | cons v rest ih =>
    intro buf dst
    rw [show uninitializedCopyN (v :: rest) buf dst
      = uninitializedCopyN rest (buf.set dst (some v)) (dst + 1) from rfl]
    rw [ih]
    simp

lemma uninitializedCopyN_getElem? (vals : List α) :
    ∀ (buf : List (Option α)) (dst : Nat), dst + vals.length ≤ buf.length → ∀ i,
      (uninitializedCopyN vals buf dst)[i]? =
        if dst ≤ i ∧ i < dst + vals.length then (vals[i - dst]?).map some else buf[i]? := by
  induction vals with
  | nil =>
    intro buf dst _ i
    rw [if_neg (by simp only [List.length_nil]; omega)]
    rfl
  | cons v rest ih =>
    intro buf dst h i
    have hlen : (dst + 1) + rest.length ≤ (buf.set dst (some v)).length := by
      simp only [List.length_set]
      simp only [List.length_cons] at h
      omega
    rw [show uninitializedCopyN (v :: rest) buf dst
      = uninitializedCopyN rest (buf.set dst (some v)) (dst + 1) from rfl]
    rw [ih _ _ hlen i]
    simp only [List.length_cons] at h
    by_cases h1 : dst + 1 ≤ i ∧ i < dst + 1 + rest.length
    · rw [if_pos h1, if_pos (by simp only [List.length_cons]; omega)]
      rw [show i - dst = (i - (dst + 1)) + 1 from by omega, List.getElem?_cons_succ]
    · rw [if_neg h1, List.getElem?_set]
      by_cases h2 : dst = i
      · rw [if_pos h2, if_pos (by omega), if_pos (by simp only [List.length_cons]; omega)]
        rw [show i - dst = 0 from by omega]
        simp
      · rw [if_neg h2, if_neg (by simp only [List.length_cons]; omega)]

lemma filterMap_id_map_some (l : List α) : (l.map some).filterMap id = l := by
  rw [List.filterMap_map]
  exact List.filterMap_some l

/-- The reallocating insertion path: construct the new element at offset `d`
of the fresh buffer, relocate the prefix into `[0, d)` and the suffix into
`[d+1, size+1)`; the live region of the new buffer is exactly the insertion
of `x` at index `d`, and the fresh buffer's capacity is `size == 0 ? 1 : size * 2`. -/
lemma emplaceWithReallocate_eq (elems : List α) (d : Nat) (x : α)
    (h : d ≤ elems.length) :
    emplaceWithReallocate elems d x =
      (elems.take d ++ x :: elems.drop d, if elems.length = 0 then 1 else elems.length * 2) := by
  unfold emplaceWithReallocate
  have hcap1 : elems.length + 1 ≤ (if elems.length = 0 then 1 else elems.length * 2) := by
    split <;> omega
  set newCap := if elems.length = 0 then 1 else elems.length * 2 with hcapdef
  simp only [Prod.mk.injEq]
  refine ⟨?_, trivial⟩
  unfold liveElems
  have hb1len : ((freshBuf α newCap).set d (some x)).length = newCap := by
    simp [freshBuf]
  have hb2 : ∀ i, (uninitializedCopyN (elems.take d) ((freshBuf α newCap).set d (some x)) 0)[i]? =
      if 0 ≤ i ∧ i < 0 + (elems.take d).length then ((elems.take d)[i - 0]?).map some
      else ((freshBuf α newCap).set d (some x))[i]? :=
    uninitializedCopyN_getElem? (elems.take d) _ 0
      (by rw [hb1len]; simp only [List.length_take]; omega)
  have hb2len : (uninitializedCopyN (elems.take d) ((freshBuf α newCap).set d (some x)) 0).length
      = newCap := by rw [uninitializedCopyN_length, hb1len]
  have hb3 : ∀ i, (uninitializedCopyN (elems.drop d)
        (uninitializedCopyN (elems.take d) ((freshBuf α newCap).set d (some x)) 0) (d + 1))[i]? =
      if d + 1 ≤ i ∧ i < d + 1 + (elems.drop d).length then ((elems.drop d)[i - (d + 1)]?).map some
      else (uninitializedCopyN (elems.take d) ((freshBuf α newCap).set d (some x)) 0)[i]? :=
    uninitializedCopyN_getElem? (elems.drop d) _ (d + 1)
      (by rw [hb2len]; simp only [List.length_drop]; omega)
  have hmain : (uninitializedCopyN (elems.drop d)
        (uninitializedCopyN (elems.take d) ((freshBuf α newCap).set d (some x)) 0) (d + 1)).take
        (elems.length + 1)
      = (elems.take d ++ x :: elems.drop d).map some := by
    apply List.ext_getElem?
    intro i
    rw [List.getElem?_take, List.getElem?_map, hb3 i, hb2 i, List.getElem?_set]
    simp only [List.getElem?_append, List.getElem?_take, List.getElem?_drop,
      List.getElem?_cons, List.getElem?_nil, List.length_take, List.length_drop,
      List.length_cons, List.length_nil, Nat.min_eq_left h, freshBuf,
      List.getElem?_replicate, List.length_replicate]
    split_ifs <;>
      first
        | rfl
        | omega
        | (congr 2; omega)
        | (rw [List.getElem?_eq_none (by omega)]; rfl)
  rw [hmain, filterMap_id_map_some]

/-! ## Vector-level corollaries -/

/-- `Emplace` inserts the value at the requested index, in either path. -/
lemma Vec.emplace_elems [Inhabited α] (v : Vec α) (d : Nat) (x : α) (h : d ≤ v.size) :
    (v.emplace d x).elems = v.elems.take d ++ x :: v.elems.drop d := by
  unfold Vec.emplace
  split
  · exact emplaceWithoutReallocate_eq v.elems d x h
  · simp only [emplaceWithReallocate_eq v.elems d x h]

/-- `Emplace` keeps the capacity on the in-place path and allocates
`size_ == 0 ? 1 : size_ * 2` on the reallocating path. -/
lemma Vec.emplace_capacity [Inhabited α] (v : Vec α) (d : Nat) (x : α) :
    (v.emplace d x).capacity =
      if v.capacity ≥ v.size + 1 then v.capacity
      else if v.size = 0 then 1 else v.size * 2 := by
  unfold Vec.emplace
  by_cases hc : v.capacity ≥ v.size + 1
  · rw [if_pos hc, if_pos hc]
  · rw [if_neg hc, if_neg hc]
    rfl

/-- `PushBack` appends the value, in either path. -/
lemma Vec.pushBack_elems [Inhabited α] (v : Vec α) (x : α) :
    (v.pushBack x).elems = v.elems ++ [x] := by
  unfold Vec.pushBack
  split
  · rw [emplaceWithoutReallocate_eq v.elems v.size x (Nat.le_refl _)]
    simp [Vec.size]
  · simp only [emplaceWithReallocate_eq v.elems v.size x (Nat.le_refl _)]
    simp [Vec.size]

/-- `PushBack` keeps the capacity on the in-place path and allocates
`size_ == 0 ? 1 : size_ * 2` on the reallocating path. -/
lemma Vec.pushBack_capacity [Inhabited α] (v : Vec α) (x : α) :
    (v.pushBack x).capacity =
      if v.capacity ≥ v.size + 1 then v.capacity
      else if v.size = 0 then 1 else v.size * 2 := by
  unfold Vec.pushBack
  by_cases hc : v.capacity ≥ v.size + 1
  · rw [if_pos hc, if_pos hc]
  · rw [if_neg hc, if_neg hc]
    rfl

/-! ## Capacity behaviour of each public operation -/

lemma Vec.erase_capacity [Inhabited α] (v : Vec α) (d : Nat) :
    (v.erase d).capacity = v.capacity := rfl

lemma Vec.popBack_capacity (v : Vec α) : v.popBack.capacity = v.capacity := by
  unfold Vec.popBack
  split <;> rfl

lemma Vec.reserve_capacity (v : Vec α) (n : Nat) :
    (v.reserve n).capacity = if n ≤ v.capacity then v.capacity else n := by
  unfold Vec.reserve
  split
  · rfl
  · rfl

lemma Vec.resize_capacity [Inhabited α] (v : Vec α) (n : Nat) :
    (v.resize n).capacity = if v.capacity > n then v.capacity
      else if n ≤ v.capacity then v.capacity else n := by
  unfold Vec.resize
  by_cases hc : v.capacity > n
  · rw [if_pos hc, if_pos hc]
    split <;> rfl
  · rw [if_neg hc, if_neg hc]
    show (v.reserve n).capacity = _
    exact Vec.reserve_capacity v n

lemma Vec.copyAssign_capacity (lhs rhs : Vec α) :
    (lhs.copyAssign rhs false).capacity =
      if lhs.capacity < rhs.size then rhs.size else lhs.capacity := by
  unfold Vec.copyAssign
  rw [if_neg (by simp)]
  by_cases hc : lhs.capacity < rhs.size
  · rw [if_pos hc, if_pos hc]
  · rw [if_neg hc, if_neg hc]
    split <;> rfl

/-- No operation of `Op` ever shrinks the capacity. -/
lemma Vec.applyOp_capacity_le [Inhabited α] (v : Vec α) (op : Op α) :
    v.capacity ≤ (v.applyOp op).capacity := by
  cases op with
  | push x =>
    show v.capacity ≤ (v.pushBack x).capacity
    rw [Vec.pushBack_capacity]
    by_cases hc : v.capacity ≥ v.size + 1
    · rw [if_pos hc]
    · rw [if_neg hc]
      split <;> omega
  | ins d x =>
    show v.capacity ≤ (v.emplace d x).capacity
    rw [Vec.emplace_capacity]
    by_cases hc : v.capacity ≥ v.size + 1
    · rw [if_pos hc]
    · rw [if_neg hc]
      split <;> omega
  | empl d x =>
    show v.capacity ≤ (v.emplace d x).capacity
    rw [Vec.emplace_capacity]
    by_cases hc : v.capacity ≥ v.size + 1
    · rw [if_pos hc]
    · rw [if_neg hc]
      split <;> omega
  | ers d =>
    show v.capacity ≤ (v.erase d).capacity
    rw [Vec.erase_capacity]
  | pop =>
    show v.capacity ≤ v.popBack.capacity
    rw [Vec.popBack_capacity]
  | res n =>
    show v.capacity ≤ (v.resize n).capacity
    rw [Vec.resize_capacity]
    split_ifs <;> omega
  | resv n =>
    show v.capacity ≤ (v.reserve n).capacity
    rw [Vec.reserve_capacity]
    split_ifs <;> omega
  | copyFrom src =>
    show v.capacity ≤ (v.copyAssign src false).capacity
    rw [Vec.copyAssign_capacity]
    split_ifs <;> omega

/-! ## The claims -/

/-- C1 (counterexample): move-assignment does not leave the source with size 0
whenever the destination's capacity already suffices — move-assigning a
1-element vector into a capacity-2 vector holding `[10, 20]` leaves the source
holding the destination's prior two elements. -/
theorem C1_counterexample :
    ¬ ((Vec.moveAssign (⟨[10, 20], 2⟩ : Vec Int) ⟨[5], 1⟩ false).2.size = 0) := by
  decide

/-- C1 (amended): move-construction always leaves the source empty (size 0,
capacity 0) with the destination holding exactly the source's prior elements
in order; move-assignment always gives the destination exactly the source's
prior elements in order, but leaves the source empty only in the case
`destination capacity < source size`; otherwise the source receives the
destination's prior state (valid, not necessarily empty). -/
theorem C1_move_semantics (s v : Vec α) :
    (Vec.moveConstruct s).1 = s ∧
    (Vec.moveConstruct s).2.size = 0 ∧
    (Vec.moveConstruct s).2.capacity = 0 ∧
    (Vec.moveAssign v s false).1.elems = s.elems ∧
    (v.capacity < s.size →
      (Vec.moveAssign v s false).2.size = 0 ∧ (Vec.moveAssign v s false).2.capacity = 0) ∧
    (¬ v.capacity < s.size → (Vec.moveAssign v s false).2 = v) := by
  refine ⟨rfl, rfl, rfl, ?_, ?_, ?_⟩
  · unfold Vec.moveAssign
    rw [if_neg (by simp)]
    split <;> rfl
  · intro h
    unfold Vec.moveAssign
    rw [if_neg (by simp), if_pos h]
    exact ⟨rfl, rfl⟩
  · intro h
    unfold Vec.moveAssign
    rw [if_neg (by simp), if_neg h]
    rfl

theorem C1_witness :
    (Vec.moveConstruct (⟨[1, 2], 2⟩ : Vec Int)).2.size = 0 ∧
    (Vec.moveAssign (⟨[], 0⟩ : Vec Int) ⟨[7], 1⟩ false).2.size = 0 := by
  refine ⟨(C1_move_semantics (⟨[1, 2], 2⟩ : Vec Int) (⟨[], 0⟩ : Vec Int)).2.1, ?_⟩
  exact ((C1_move_semantics (⟨[7], 1⟩ : Vec Int) (⟨[], 0⟩ : Vec Int)).2.2.2.2.1
    (by decide)).1

/-- C2 (code evaluated at the failing input): move-assigning a `RawMemory`
holding address 200 (capacity 3) into one holding address 100 (capacity 2)
leaves the source's stored address equal to the destination's prior — already
freed — address 100 instead of null (its capacity does become 0, and the
destination correctly receives address 200 with capacity 3); address 100 is
passed to `operator delete` twice over the two objects' remaining lifetimes.
Move-construction, by contrast, does null the source. -/
theorem C2_bug_eval :
    (RawMemory.moveAssign ⟨some 100, 2⟩ ⟨some 200, 3⟩ false).1 = ⟨some 200, 3⟩ ∧
    (RawMemory.moveAssign ⟨some 100, 2⟩ ⟨some 200, 3⟩ false).2.buffer = some 100 ∧
    ¬ (RawMemory.moveAssign ⟨some 100, 2⟩ ⟨some 200, 3⟩ false).2.buffer = none ∧
    (RawMemory.moveAssign ⟨some 100, 2⟩ ⟨some 200, 3⟩ false).2.capacity = 0 ∧
    (RawMemory.moveAssignDeallocations ⟨some 100, 2⟩ ⟨some 200, 3⟩).count (some 100) = 2 ∧
    (RawMemory.moveConstruct ⟨some 200, 3⟩).2 = ⟨none, 0⟩ := by
  decide

/-- C3 (counterexample): both move-assignment and `Swap` can shrink a vector's
capacity — move-assigning a 1-element capacity-1 vector into an empty
capacity-10 vector leaves the destination with capacity 1, and swapping with a
smaller vector likewise. -/
theorem C3_counterexample :
    (Vec.moveAssign (⟨[], 10⟩ : Vec Int) ⟨[5], 1⟩ false).1.capacity < 10 ∧
    ((⟨[], 10⟩ : Vec Int).swap ⟨[], 1⟩).1.capacity < 10 := by
  decide

/-- C3 (amended): across any sequence of `PushBack`, `Insert`, `Emplace`,
`Erase`, `PopBack`, `Resize`, `Reserve` and copy-assignment, `Capacity()`
never decreases; move-assignment and `Swap` (which exchange buffers with
another vector) are the only public operations that can leave a vector with a
smaller capacity. -/
theorem C3_capacity_monotone [Inhabited α] (v : Vec α) (ops : List (Op α)) :
    v.capacity ≤ (ops.foldl Vec.applyOp v).capacity := by
  induction ops generalizing v with
  | nil => exact Nat.le_refl _
  | cons op rest ih =>
    exact Nat.le_trans (Vec.applyOp_capacity_le v op) (ih (v.applyOp op))

/-- C4: for a throwing-copy element type (so relocation is by copy), if a copy
constructor invocation throws during a reallocating insert, the exception
propagates and the vector's size, element contents and capacity are exactly
the pre-call state — no partial buffer is installed. -/
theorem C4_strong_exception_guarantee (v : Vec α) (d : Nat) (x : α) (ok : Nat → Bool)
    (hgrow : v.capacity < v.size + 1) (e : Vec α)
    (herr : v.emplaceGrowThrow d x ok = Except.error e) :
    e.size = v.size ∧ e.elems = v.elems ∧ e.capacity = v.capacity := by
  unfold Vec.emplaceGrowThrow at herr
  cases h : emplaceWithReallocateThrow v.elems d x ok with
  | error u =>
    cases u
    rw [h] at herr
    cases herr
    exact ⟨rfl, rfl, rfl⟩
  | ok p =>
    rw [h] at herr
    cases herr

theorem C4_witness :
    ((⟨[1, 2], 2⟩ : Vec Int).emplaceGrowThrow 1 9 (fun i => decide (i ≠ 2))
        = Except.error (⟨[1, 2], 2⟩ : Vec Int)) ∧
    (⟨[1, 2], 2⟩ : Vec Int).capacity < (⟨[1, 2], 2⟩ : Vec Int).size + 1 ∧
    (⟨[1, 2], 2⟩ : Vec Int).elems = [1, 2] ∧
    (⟨[1, 2], 2⟩ : Vec Int).capacity = 2 := by
  have herr : (⟨[1, 2], 2⟩ : Vec Int).emplaceGrowThrow 1 9 (fun i => decide (i ≠ 2))
      = Except.error (⟨[1, 2], 2⟩ : Vec Int) := by rfl
  have h := C4_strong_exception_guarantee (⟨[1, 2], 2⟩ : Vec Int) 1 9
    (fun i => decide (i ≠ 2)) (by decide) (⟨[1, 2], 2⟩ : Vec Int) herr
  exact ⟨herr, by decide, h.2.1.trans (by rfl), h.2.2.trans (by rfl)⟩

/-- C5: in both `Reserve` and `EmplaceWithReallocate`, elements are relocated
by move-construction iff the element type's move constructor cannot throw or
the type is not copy-constructible; otherwise by copy-construction; relocation
never uses move-assignment. -/
theorem C5_relocation_policy :
    ∀ nothrowMove copyCtible : Bool,
      (reserveRelocMethod nothrowMove copyCtible = RelocMethod.moveConstruct ↔
        (nothrowMove = true ∨ copyCtible = false)) ∧
      emplaceRelocMethod nothrowMove copyCtible = reserveRelocMethod nothrowMove copyCtible ∧
      (emplaceRelocMethod nothrowMove copyCtible = RelocMethod.copyConstruct ↔
        (nothrowMove = false ∧ copyCtible = true)) ∧
      reserveRelocMethod nothrowMove copyCtible ≠ RelocMethod.moveAssignInto ∧
      emplaceRelocMethod nothrowMove copyCtible ≠ RelocMethod.moveAssignInto := by
  decide

/-- C6: whenever an insert operation triggers implicit reallocation
(`Capacity() < size_ + 1`), the newly allocated buffer's capacity is exactly
`max(1, 2 * oldSize)`. -/
theorem C6_growth_factor [Inhabited α] (v : Vec α) (d : Nat) (x : α)
    (hgrow : v.capacity < v.size + 1) :
    (v.pushBack x).capacity = max 1 (2 * v.size) ∧
    (v.emplace d x).capacity = max 1 (2 * v.size) := by
  rw [Vec.pushBack_capacity, Vec.emplace_capacity,
    if_neg (show ¬ v.capacity ≥ v.size + 1 from by omega)]
  constructor <;> (split <;> omega)

theorem C6_witness :
    ((⟨[7], 1⟩ : Vec Int).pushBack 8).capacity = max 1 (2 * (⟨[7], 1⟩ : Vec Int).size) :=
  (C6_growth_factor (⟨[7], 1⟩ : Vec Int) 0 8 (by decide)).1

/-- C7: the concrete scenario — from an empty vector of `int`, three
`PushBack`s yield size 3, capacity ≥ 3 and contents `[1,2,3]`;
`Insert(begin+1, 99)` yields `[1,99,2,3]`; `Erase(begin+2)` yields
`[1,99,3]`; `PopBack()` yields `[1,99]` with size 2. -/
theorem C7_concrete_scenario :
    ((((Vec.mk0 Int).pushBack 1).pushBack 2).pushBack 3).size = 3 ∧
    ((((Vec.mk0 Int).pushBack 1).pushBack 2).pushBack 3).capacity ≥ 3 ∧
    ((((Vec.mk0 Int).pushBack 1).pushBack 2).pushBack 3).elems = [1, 2, 3] ∧
    (((((Vec.mk0 Int).pushBack 1).pushBack 2).pushBack 3).insert 1 99).elems
      = [1, 99, 2, 3] ∧
    ((((((Vec.mk0 Int).pushBack 1).pushBack 2).pushBack 3).insert 1 99).erase 2).elems
      = [1, 99, 3] ∧
    (((((((Vec.mk0 Int).pushBack 1).pushBack 2).pushBack 3).insert 1 99).erase 2).popBack).elems
      = [1, 99] ∧
    (((((((Vec.mk0 Int).pushBack 1).pushBack 2).pushBack 3).insert 1 99).erase 2).popBack).size
      = 2 := by
  decide

/-- C8: `Resize(0)` on a non-empty vector destroys all live elements and sets
the size to 0 while the capacity remains exactly what it was before the
call. -/
theorem C8_resize_zero [Inhabited α] (v : Vec α) (hwf : v.wf) (hne : v.size ≠ 0) :
    (v.resize 0).size = 0 ∧ (v.resize 0).elems = [] ∧
    (v.resize 0).capacity = v.capacity := by
  have hcap : v.capacity > 0 := by
    unfold Vec.wf at hwf
    omega
  unfold Vec.resize
  rw [if_pos hcap, if_pos (by omega)]
  refine ⟨?_, ?_, rfl⟩ <;> simp [Vec.size]

theorem C8_witness :
    ((⟨[7, 8], 2⟩ : Vec Int).resize 0).size = 0 ∧
    ((⟨[7, 8], 2⟩ : Vec Int).resize 0).elems = [] ∧
    ((⟨[7, 8], 2⟩ : Vec Int).resize 0).capacity = (⟨[7, 8], 2⟩ : Vec Int).capacity :=
  C8_resize_zero (⟨[7, 8], 2⟩ : Vec Int) (by decide) (by decide)

/-- C9: inserting an element of the vector into itself is handled correctly in
both paths — `Insert(pos, v[k])` with `d = distance(begin, pos)` produces the
pre-call value of `v[k]` at index `d` with all other elements shifted
correctly, because the in-place path copies the argument into a temporary
before any shifting and the reallocating path constructs the new element in
the new buffer before any relocation. -/
theorem C9_aliased_insert [Inhabited α] (v : Vec α) (d k : Nat)
    (hd : d ≤ v.size) (hk : k < v.size) :
    (v.insertAliased d k).elems
      = v.elems.take d ++ v.elems.getD k default :: v.elems.drop d ∧
    (v.insertAliased d k).size = v.size + 1 := by
  have helems : (v.insertAliased d k).elems
      = v.elems.take d ++ v.elems.getD k default :: v.elems.drop d := by
    unfold Vec.insertAliased
    by_cases hc : v.capacity ≥ v.size + 1
    · rw [if_pos hc]
      by_cases hde : d = v.size
      · rw [if_pos hde]
        show v.elems ++ [v.elems.getD k default] = _
        rw [hde]
        show _ = v.elems.take v.elems.length ++ _ :: v.elems.drop v.elems.length
        rw [List.take_length, List.drop_length]
      · rw [if_neg hde]
        show (moveBackwardLoop (v.elems ++ [v.elems.getD (v.size - 1) default]) d
          (v.size - 1)).set d (v.elems.getD k default) = _
        have h2 := emplaceWithoutReallocate_eq v.elems d (v.elems.getD k default) hd
        unfold emplaceWithoutReallocate at h2
        rw [if_neg (show ¬ d = v.elems.length from hde)] at h2
        exact h2
    · rw [if_neg hc]
      show (emplaceWithReallocate v.elems d (v.elems.getD k default)).1 = _
      rw [emplaceWithReallocate_eq v.elems d _ hd]
  refine ⟨helems, ?_⟩
  show (v.insertAliased d k).elems.length = v.elems.length + 1
  rw [helems]
  simp only [List.length_append, List.length_take, List.length_cons, List.length_drop]
  have hd' : d ≤ v.elems.length := hd
  omega

theorem C9_witness :
    ((⟨[1, 2, 3], 4⟩ : Vec Int).insertAliased 1 0).elems = [1, 1, 2, 3] ∧
    ((⟨[1, 2, 3], 4⟩ : Vec Int).insertAliased 1 0).size = 4 ∧
    ((⟨[1, 2, 3], 3⟩ : Vec Int).insertAliased 1 2).elems = [1, 3, 2, 3] ∧
    ((⟨[1, 2, 3], 3⟩ : Vec Int).insertAliased 1 2).size = 4 := by
  have h1 := C9_aliased_insert (⟨[1, 2, 3], 4⟩ : Vec Int) 1 0 (by decide) (by decide)
  have h2 := C9_aliased_insert (⟨[1, 2, 3], 3⟩ : Vec Int) 1 2 (by decide) (by decide)
  exact ⟨h1.1.trans (by rfl), h1.2, h2.1.trans (by rfl), h2.2⟩

/-- C10: self-assignment is a no-op — with the address-identity test true
(`this == &rhs`, so both operands are the very same object), copy-assignment
and move-assignment return immediately, leaving size, capacity and contents
unchanged. -/
theorem C10_self_assignment (v : Vec α) :
    v.copyAssign v true = v ∧ v.moveAssign v true = (v, v) := by
  exact ⟨rfl, rfl⟩

end AdvVec
